import Mathlib

/-!
Verification development for the Local-Pollution-Report application.

The definitions below are shallow embeddings of the TypeScript source:

* `jsRound`, `resizeDims`, `qsearch`, `compressImage` embed the image
  normalizer `SubmitReport.compressImage`
  (src/app/submit-report/submit-report.ts, lines 566-619);
* `taskPercent`, `applyEvent`, `runEvents` embed the per-task progress
  callbacks of `submit.uploadSingle` (submit-report.ts, lines 670-705);
* `saveReportWithUrls`, `submit`, `uploadLoop` embed the submission
  orchestrator `SubmitReport.submit` (submit-report.ts, lines 621-749)
  and `ReportsService.saveReportWithUrls` (reports.service.ts);
* `onFileChange`, `onDrop` embed the file pickers
  (submit-report.ts, lines 481-509);
* `updateStatus`, `approveReport`, `approveReportV2`, `unapproveReport`
  embed the admin-dashboard report operations.

JavaScript numbers are modelled as exact rationals (`ℚ`) and byte counts
as naturals; `Math.round` is `jsRound`.  Firestore documents are records;
a document field that the code never writes is modelled as an `Option`
that is `none`.
-/

namespace PollutionReport

/-- JavaScript `Math.round` on a nonnegative rational: `⌊x + 1/2⌋`. -/

def jsRound (x : ℚ) : ℤ := ⌊x + 1/2⌋

/-! ## Image normalizer (`compressImage`) -/

/-- The resize step of `compressImage` (submit-report.ts lines 571-579):
`scale = iw > maxWidth ? maxWidth / iw : 1`,
`nw = Math.round(iw * scale)`, `nh = Math.round(ih * scale)`. -/

def resizeDims (iw ih maxWidth : ℕ) : ℕ × ℕ :=
  let scale : ℚ := if maxWidth < iw then (maxWidth : ℚ) / iw else 1
  ((jsRound (iw * scale)).toNat, (jsRound (ih * scale)).toNat)

/-- Result of `compressImage`: either the original input `File` is returned
unchanged, or a new `File` built from `bestBlob` (we record its byte size). -/

inductive CompressResult
  | original
  | compressed (size : ℕ)
deriving DecidableEq

/-- The quality binary-search loop of `compressImage` (submit-report.ts
lines 590-609), with the encoder `canvas.toBlob` abstracted as
`enc : ℚ → Option ℕ` mapping a quality to the encoded byte size (or `none`
when the codec produces no output).  Returns the final `bestBlob` together
with the trace of `toBlob` results, one entry per codec invocation:

```
let low = 0.4, high = 0.95, bestBlob = null;
for (let i = 0; i < 7; i++) {
  const q = (low + high) / 2;
  const blob = await toBlob(q);
  if (!blob) break;
  bestBlob = blob;
  if (size > maxBytes) high = q;
  else if (size < minBytes) low = q;
  else break;
}
```
-/

def qsearch (enc : ℚ → Option ℕ) (minBytes maxBytes : ℕ) :
    ℕ → ℚ → ℚ → Option ℕ → Option ℕ × List (Option ℕ)
  | 0, _, _, best => (best, [])
  | n + 1, low, high, best =>
    let q := (low + high) / 2
    match enc q with
    | none => (best, [none])
    | some size =>
      if maxBytes < size then
        let r := qsearch enc minBytes maxBytes n low q (some size)
        (r.1, some size :: r.2)
      else if size < minBytes then
        let r := qsearch enc minBytes maxBytes n q high (some size)
        (r.1, some size :: r.2)
      else (some size, [some size])

/-- Definition of `compressImage` from the quality search on (submit-report.ts lines
584-618): byte band `[targetMinKB*1024, targetMaxKB*1024]`, seven
iterations, `low = 0.4`, `high = 0.95`; if `bestBlob` is still null the
original file is returned, otherwise a new file built from `bestBlob`. -/

def compressImage (enc : ℚ → Option ℕ) (targetMinKB targetMaxKB : ℕ) :
    CompressResult :=
  match (qsearch enc (targetMinKB * 1024) (targetMaxKB * 1024) 7
      (2/5) (19/20) none).1 with
  | none => .original
  | some size => .compressed size

/-- The byte size carried by a `CompressResult` (`none` for the original). -/

def resultSize : CompressResult → Option ℕ
  | .original => none
  | .compressed s => some s

/-- A monotone synthetic encoder: 100 KB below quality `1/2`, 300 KB at
exactly `1/2`, 500 KB above it. -/

def c1size (q : ℚ) : ℕ :=
  if q < 1/2 then 102400 else if q ≤ 1/2 then 307200 else 512000

/-- The synthetic codec built from `c1size`; it never fails. -/

def c1enc (q : ℚ) : Option ℕ := some (c1size q)

/-- A codec that succeeds (oversized) on the first invocation at quality
`27/40 = (0.4 + 0.95)/2` and fails on every other quality. -/

def c4enc (q : ℚ) : Option ℕ := if q = 27/40 then some 512000 else none

/-! ## Upload progress aggregation (`submit.uploadSingle`, lines 670-705)

`submit` initialises `progressPerImage = new Array(n).fill(0)` and
`overallPercent = 0`; each storage task's `state_changed` callback sets
`progressPerImage[idx] = Math.round(bytesTransferred / (totalBytes || 1) * 100)`
and recomputes `overallPercent = Math.round(sum / totalFiles)`; the
completion callback forces `progressPerImage[idx] = 100` and recomputes
the same way.  We model a batch upload as the fold of a list of callback
events over the initial state. -/

structure UploadProgress where
  perImage : List ℤ
  overallPercent : ℤ
deriving DecidableEq

/-- One storage-task callback: a byte-progress event or a completion. -/

inductive UploadEvent
  | progress (idx bytesTransferred totalBytes : ℕ)
  | complete (idx : ℕ)
deriving DecidableEq

/-- The task index an event belongs to. -/

def evIdx : UploadEvent → ℕ
  | .progress i _ _ => i
  | .complete i => i

/-- The callback's `Math.round(snapshot.bytesTransferred / (snapshot.totalBytes || 1) * 100)`. -/

def taskPercent (bytesTransferred totalBytes : ℕ) : ℤ :=
  jsRound ((bytesTransferred : ℚ) /
    (if totalBytes = 0 then 1 else (totalBytes : ℚ)) * 100)

/-- Effect of one callback on the transient progress state. -/

def applyEvent (totalFiles : ℕ) (st : UploadProgress) : UploadEvent → UploadProgress
  | .progress i bt tb =>
    let per := st.perImage.set i (taskPercent bt tb)
    { perImage := per, overallPercent := jsRound ((per.sum : ℚ) / totalFiles) }
  | .complete i =>
    let per := st.perImage.set i 100
    { perImage := per, overallPercent := jsRound ((per.sum : ℚ) / totalFiles) }

/-- Initial state `progressPerImage = new Array(n).fill(0)`, `overallPercent = 0`:
tasks not yet started count as 0. -/

def initProgress (n : ℕ) : UploadProgress :=
  { perImage := List.replicate n 0, overallPercent := 0 }

/-- The progress state after a sequence of callback events. -/

def runEvents (n : ℕ) (evs : List UploadEvent) : UploadProgress :=
  evs.foldl (applyEvent n) (initProgress n)

/-- Task `i` has completed: a completion event for `i` occurs and no later
event touches task `i`. -/

def completesLast (evs : List UploadEvent) (i : ℕ) : Prop :=
  ∃ l r, evs = l ++ .complete i :: r ∧ ∀ e ∈ r, evIdx e ≠ i

/-! ## Report submission orchestrator (`SubmitReport.submit`, lines 621-749)

Files are identified by their names; the blob store, report store and
auth service are abstract collaborators in `SubmitEnv`.  I/O performed by
`submit` is recorded as a trace of `Effect`s. -/

abbrev ImageFile := String

/-- The Firestore document written by `ReportsService.saveReportWithUrls`
(reports.service.ts lines 116-142).  The code writes `type`, `location`,
`date`, `time`, `description`, `images`, `reporterId`, `reporterName`,
`barangayId`, `status: 'Pending'`, `upvotes: 0`, `createdAt` — and no
`approved` key.  `approved : Option Bool` models presence of that
document field (`none` = the key is absent); clock- and
environment-derived metadata (`date`, `time`, `createdAt`, `barangayId`)
is not modelled. -/

structure PersistedReport where
  rtype : String
  location : String
  description : String
  images : List String
  reporterId : String
  reporterName : String
  status : String
  upvotes : ℕ
  approved : Option Bool
deriving DecidableEq

/-- The payload handed to `saveReportWithUrls` by `submit`. -/

structure ReportPayload where
  rtype : String
  location : String
  description : String
  imageUrls : List String

/-- Embedding of `ReportsService.saveReportWithUrls`: builds the new report document.
`reporterName` is `user.email || 'Anonymous'`; `status` is `'Pending'`,
`upvotes` is `0`; no `approved` key is written. -/

def saveReportWithUrls (uid email : String) (p : ReportPayload) : PersistedReport :=
  { rtype := p.rtype
    location := p.location
    description := p.description
    images := p.imageUrls
    reporterId := uid
    reporterName := if email = "" then "Anonymous" else email
    status := "Pending"
    upvotes := 0
    approved := none }

/-- An I/O call made during one submission attempt. -/

inductive Effect
  | normalize (idx : ℕ)
  | uploadBlob (idx : ℕ)
  | deleteBlob (idx : ℕ)
  | saveReport (r : PersistedReport)
  | revokeURL (url : String)
deriving DecidableEq

/-- Outcome of one `submit` call. -/

inductive SubmitResult
  | validationError (msg : String)
  | failure
  | success
deriving DecidableEq

/-- The component state `submit` reads and writes: the report draft fields
plus the transient preview/progress state. -/

structure SubmitState where
  rtype : String
  location : String
  description : String
  latlng : Option (ℚ × ℚ)
  images : List ImageFile
  previews : List String
  progressPerImage : List ℤ
  uploading : Bool
deriving DecidableEq

/-- Abstract collaborators: the logged-in user (uid, email), the blob
store (per-index upload result), the report store, and the barangay name
and coordinate formatter used for the location-text fallback. -/

structure SubmitEnv where
  user : Option (String × String)
  upload : ℕ → Except String String
  save : PersistedReport → Except String Unit
  barangayName : Option String
  fmtCoords : ℚ × ℚ → String

/-- The sequential upload loop of `submit` (lines 707-712): images are
uploaded one at a time; the first rejection aborts the loop.  Returns the
trace of upload calls and either the ordered URL list or the error. -/

def uploadLoop (upload : ℕ → Except String String) :
    List ℕ → List Effect × Except String (List String)
  | [] => ([], .ok [])
  | i :: rest =>
    match upload i with
    | .error e => ([.uploadBlob i], .error e)
    | .ok u =>
      let r := uploadLoop upload rest
      (.uploadBlob i :: r.1, r.2.map (u :: ·))

/-- The location-text fallback of `submit` (lines 715-722): the draft's
location text, else the user's barangay name, else the formatted
coordinates, else `'Unknown Location'`. -/

def locationText (st : SubmitState) (barangayName : Option String)
    (fmt : ℚ × ℚ → String) : String :=
  if st.location ≠ "" then st.location
  else
    match barangayName with
    | some b => b
    | none =>
      match st.latlng with
      | some p => fmt p
      | none => "Unknown Location"

/-- The sequential `compressImage` calls of `submit` (lines 657-663),
one per accepted image, recorded as trace entries. -/

def normEffs (st : SubmitState) : List Effect :=
  (List.range st.images.length).map Effect.normalize

/-- The blob-store calls made by `submit`'s upload loop. -/

def upEffs (env : SubmitEnv) (st : SubmitState) : List Effect :=
  (uploadLoop env.upload (List.range st.images.length)).1

/-- The outcome of `submit`'s upload loop: the ordered URLs or the first
transport error. -/

def upResult (env : SubmitEnv) (st : SubmitState) : Except String (List String) :=
  (uploadLoop env.upload (List.range st.images.length)).2

/-- The document `submit` asks the report store to create (lines 724-734). -/

def builtReport (env : SubmitEnv) (st : SubmitState) (uid email : String)
    (urls : List String) : PersistedReport :=
  saveReportWithUrls uid email
    { rtype := st.rtype
      location := locationText st env.barangayName env.fmtCoords
      description := st.description
      imageUrls := urls }

/-- The component state after `submit`'s catch block (lines 744-748): the
`uploading` flag is reset; the `progressPerImage` array allocated at lines
652-655 remains; previews remain. -/

def uploadingOff (st : SubmitState) : SubmitState :=
  { st with
    uploading := false
    progressPerImage := List.replicate st.images.length 0 }

/-- The component state after `submit`'s success path (lines 736-741):
draft reset (the code resets `type` to `'water'`), previews and progress
cleared, `uploading` off. -/

def resetState : SubmitState :=
  { rtype := "water", location := "", description := "", latlng := none,
    images := [], previews := [], progressPerImage := [], uploading := false }

/-- Embedding of `SubmitReport.submit` (lines 621-749): validation (type, description,
map coordinate, at least one image) before any I/O; then per-image
normalization, the sequential upload loop, and the report-store write; on
success the draft and transient state are reset and the preview object
URLs revoked; any error produces `failure` with only the `uploading` flag
reset (the catch block does not revoke previews). -/

def submit (env : SubmitEnv) (st : SubmitState) :
    SubmitResult × SubmitState × List Effect :=
  if st.rtype = "" then
    (.validationError "Please select pollution type", st, [])
  else if st.description = "" then
    (.validationError "Please provide a description", st, [])
  else if st.latlng = none then
    (.validationError "Please set a location on the map", st, [])
  else if st.images = [] then
    (.validationError "Please upload at least one image", st, [])
  else
    match env.user with
    | none => (.failure, { st with uploading := false }, [])
    | some (uid, email) =>
      match upResult env st with
      | .error _ => (.failure, uploadingOff st, normEffs st ++ upEffs env st)
      | .ok urls =>
        match env.save (builtReport env st uid email urls) with
        | .error _ =>
          (.failure, uploadingOff st,
            normEffs st ++ upEffs env st ++
              [.saveReport (builtReport env st uid email urls)])
        | .ok _ =>
          (.success, resetState,
            normEffs st ++ upEffs env st ++
              [.saveReport (builtReport env st uid email urls)] ++
              st.previews.map Effect.revokeURL)

/-- The report documents created during a trace. -/

def savedRecords (effs : List Effect) : List PersistedReport :=
  effs.filterMap fun e =>
    match e with
    | .saveReport r => some r
    | _ => none

/-! ### Concrete collaborators and drafts used by witnesses -/

/-- A blob store / report store that accept everything. -/

def okEnv : SubmitEnv :=
  { user := some ("uid1", "user@mail.com")
    upload := fun i => .ok ("url" ++ toString i)
    save := fun _ => .ok ()
    barangayName := none
    fmtCoords := fun _ => "" }

/-- A blob store that rejects the second upload of a batch. -/

def failEnv : SubmitEnv :=
  { user := some ("uid1", "user@mail.com")
    upload := fun i => if i = 1 then .error "network down" else .ok ("url" ++ toString i)
    save := fun _ => .ok ()
    barangayName := none
    fmtCoords := fun _ => "" }

/-- A complete two-image draft. -/

def validSt : SubmitState :=
  { rtype := "Garbage", location := "Session Road",
    description := "pile of trash", latlng := some (16, 120),
    images := ["a.jpg", "b.jpg"], previews := ["blob:1", "blob:2"],
    progressPerImage := [], uploading := false }

/-- A complete three-image draft. -/

def threeSt : SubmitState :=
  { rtype := "Garbage", location := "Session Road", description := "desc",
    latlng := some (16, 120), images := ["a.jpg", "b.jpg", "c.jpg"],
    previews := ["blob:0", "blob:1", "blob:2"],
    progressPerImage := [0, 0, 0], uploading := false }

/-- A draft with an empty description (and everything else present). -/

def invalidSt : SubmitState :=
  { rtype := "Garbage", location := "", description := "",
    latlng := some (16, 120), images := ["a.jpg"], previews := ["blob:0"],
    progressPerImage := [0], uploading := false }

/-! ## Admin report operations

A persisted report's mutable workflow fields.  `AdminDashboard` mutates
them through `ReportsService.updateReport` (reports.service.ts lines
207-210), which writes exactly the partial data it is given, with no
reads and no guard on the current values. -/

/-- The workflow fields of a stored report. -/

structure ReportDoc where
  status : String
  approved : Option Bool
deriving DecidableEq

/-- Position of a status in the `Pending → In Progress → Done` workflow. -/

def statusRank : String → ℕ
  | "In Progress" => 1
  | "Done" => 2
  | _ => 0

/-- Embedding of `AdminDashboard.updateStatus` (admin-dashboard variant accepting
`'Pending' | 'In Progress' | 'Done'`): writes the requested status via
`updateReport(report.id, { status })`, unconditionally. -/

def updateStatus (r : ReportDoc) (s : String) : ReportDoc :=
  { r with status := s }

/-- Embedding of `AdminDashboard.approveReport` (variant with
`updateReport(report.id, { approved: true, status: 'In Progress' })`):
approving forces the status to `In Progress` whatever it was. -/

def approveReport (r : ReportDoc) : ReportDoc :=
  { r with approved := some true, status := "In Progress" }

/-- Embedding of `AdminDashboard.approveReport` (variant with
`updateReport(report.id, { approved: true })` only). -/

def approveReportV2 (r : ReportDoc) : ReportDoc :=
  { r with approved := some true }

/-- Embedding of `AdminDashboard.unapproveReport`:
`updateReport(report.id, { approved: false })`; the status is untouched. -/

def unapproveReport (r : ReportDoc) : ReportDoc :=
  { r with approved := some false }

/-! ## File selection (`onFileChange` / `onDrop`, lines 481-509) -/

/-- The component field `this.maxFiles = 3`. -/

def maxFiles : ℕ := 3

/-- The picker-related component state. -/

structure PickState where
  images : List ImageFile
  previews : List String
  progressPerImage : List ℤ
deriving DecidableEq

/-- Embedding of `onFileChange` (lines 481-492): takes the first `maxFiles` of the
offered files (an empty list if the event carried none), rebuilds the
previews, and resets the progress array to zeros of the accepted length. -/

def onFileChange (mkUrl : ImageFile → String) (_st : PickState)
    (files : Option (List ImageFile)) : PickState :=
  let arr := match files with
    | some fs => fs
    | none => []
  let imgs := arr.take maxFiles
  { images := imgs
    previews := imgs.map mkUrl
    progressPerImage := List.replicate imgs.length 0 }

/-- Embedding of `onDrop` (lines 499-509): returns unchanged when the drag event
carries no files; otherwise accepts the first `maxFiles` files, rebuilds
previews, and resets the progress array. -/

def onDrop (mkUrl : ImageFile → String) (st : PickState)
    (items : Option (List ImageFile)) : PickState :=
  match items with
  | none => st
  | some fs =>
    let imgs := fs.take maxFiles
    { images := imgs
      previews := imgs.map mkUrl
      progressPerImage := List.replicate imgs.length 0 }

/-! ### Facts about `jsRound` -/

lemma jsRound_nonneg {x : ℚ} (hx : 0 ≤ x) : 0 ≤ jsRound x := by
  unfold jsRound
  exact Int.le_floor.mpr (by push_cast; linarith)

lemma jsRound_natCast (k : ℕ) : jsRound (k : ℚ) = k := by
  unfold jsRound
  rw [show ((k : ℚ) + 1/2) = ((k : ℤ) : ℚ) + (1/2 : ℚ) by push_cast; ring,
    Int.floor_int_add]
  norm_num

/-- Rounding a nonnegative rational with `Math.round` lands within `1/2` of it. -/

lemma jsRound_toNat_close {x : ℚ} (hx : 0 ≤ x) :
    |(((jsRound x).toNat : ℚ)) - x| ≤ 1/2 := by
  have h0 : 0 ≤ jsRound x := jsRound_nonneg hx
  rw [show (((jsRound x).toNat : ℚ)) = ((jsRound x : ℤ) : ℚ) by
    exact_mod_cast congrArg (fun z : ℤ => (z : ℚ)) (Int.toNat_of_nonneg h0)]
  have h1 : ((jsRound x : ℤ) : ℚ) ≤ x + 1/2 := Int.floor_le _
  have h2 : x + 1/2 < ((jsRound x : ℤ) : ℚ) + 1 := Int.lt_floor_add_one _
  rw [abs_le]
  constructor <;> linarith

/-! ### C7 : resize bounds -/

/-- C7: for every decodable input (`0 < iw`), the normalizer's output width
never exceeds the requested max width, the output height is within half a
pixel of the exact aspect-preserving height `nw * ih / iw` (so the
width/height ratio matches the input ratio within one pixel of rounding),
and an input already at or below the max width is not upscaled
(output width equals input width). -/

theorem resize_spec (iw ih maxW : ℕ) (hiw : 0 < iw) :
    (resizeDims iw ih maxW).1 ≤ maxW ∧
    |(((resizeDims iw ih maxW).2 : ℚ)) -
        ((resizeDims iw ih maxW).1 : ℚ) * ih / iw| ≤ 1/2 ∧
    (iw ≤ maxW → (resizeDims iw ih maxW).1 = iw) := by
  have hiwQ : (iw : ℚ) ≠ 0 := by exact_mod_cast hiw.ne'
  by_cases h : maxW < iw
  · have hw : (resizeDims iw ih maxW).1 = maxW := by
      simp only [resizeDims, if_pos h]
      rw [show ((iw : ℚ)) * ((maxW : ℚ) / iw) = (maxW : ℚ) by
        field_simp]
      rw [jsRound_natCast]
      simp
    refine ⟨le_of_eq hw, ?_, fun hle => absurd hle (by omega)⟩
    have hx : (0 : ℚ) ≤ (ih : ℚ) * ((maxW : ℚ) / iw) := by positivity
    have hclose := jsRound_toNat_close hx
    have hh : (resizeDims iw ih maxW).2 = (jsRound ((ih : ℚ) * ((maxW : ℚ) / iw))).toNat := by
      simp only [resizeDims, if_pos h]
    rw [hh, hw]
    rw [show ((maxW : ℚ)) * ih / iw = (ih : ℚ) * ((maxW : ℚ) / iw) by ring]
    exact hclose
  · have hw : (resizeDims iw ih maxW).1 = iw := by
      simp only [resizeDims, if_neg h, mul_one]
      rw [jsRound_natCast]
      simp
    have hh : (resizeDims iw ih maxW).2 = ih := by
      simp only [resizeDims, if_neg h, mul_one]
      rw [jsRound_natCast]
      simp
    refine ⟨by omega, ?_, fun _ => hw⟩
    rw [hw, hh]
    rw [mul_div_cancel_left₀ (ih : ℚ) hiwQ]
    simp

/-- Witness for `resize_spec` at a concrete oversized input. -/

theorem resize_spec_witness :
    0 < 2000 ∧
    ((resizeDims 2000 1000 1280).1 ≤ 1280 ∧
      |(((resizeDims 2000 1000 1280).2 : ℚ)) -
          ((resizeDims 2000 1000 1280).1 : ℚ) * 1000 / 2000| ≤ 1/2 ∧
      (2000 ≤ 1280 → (resizeDims 2000 1000 1280).1 = 2000)) :=
  ⟨by norm_num, resize_spec 2000 1000 1280 (by norm_num)⟩

/-! ### Facts about the quality binary search -/

/-- The loop body executes at most `n` times: one `toBlob` result is
recorded per iteration, so the trace length bounds the codec invocations. -/

lemma qsearch_trace_length_le (enc : ℚ → Option ℕ) (minB maxB : ℕ) :
    ∀ (n : ℕ) (low high : ℚ) (best : Option ℕ),
      ((qsearch enc minB maxB n low high best).2).length ≤ n := by
  intro n
  induction n with
  | zero => intro low high best; simp [qsearch]
  | succ n ih =>
    intro low high best
    simp only [qsearch]
    cases h : enc ((low + high) / 2) with
    | none => simp
    | some size =>
      by_cases h1 : maxB < size
      · simp only [if_pos h1, List.length_cons]
        exact Nat.succ_le_succ (ih low ((low + high) / 2) (some size))
      · by_cases h2 : size < minB
        · simp only [if_neg h1, if_pos h2, List.length_cons]
          exact Nat.succ_le_succ (ih ((low + high) / 2) high (some size))
        · simp [if_neg h1, if_neg h2]

/-- Once a blob has been produced, `bestBlob` never becomes null again. -/

lemma qsearch_isSome (enc : ℚ → Option ℕ) (minB maxB : ℕ) :
    ∀ (n : ℕ) (low high : ℚ) (s : ℕ),
      ((qsearch enc minB maxB n low high (some s)).1).isSome := by
  intro n
  induction n with
  | zero => intro low high s; simp [qsearch]
  | succ n ih =>
    intro low high s
    simp only [qsearch]
    cases h : enc ((low + high) / 2) with
    | none => simp
    | some size =>
      by_cases h1 : maxB < size
      · simpa [if_pos h1] using ih low ((low + high) / 2) size
      · by_cases h2 : size < minB
        · simpa [if_neg h1, if_pos h2] using ih ((low + high) / 2) high size
        · simp [if_neg h1, if_neg h2]

/-- As long as the accumulated `bestBlob` is not already inside the byte
band, the search's final blob is inside the band iff one of the sampled
encodings is. -/

lemma qsearch_band_iff (enc : ℚ → Option ℕ) (minB maxB : ℕ) :
    ∀ (n : ℕ) (low high : ℚ) (best : Option ℕ),
      (∀ s, best = some s → ¬(minB ≤ s ∧ s ≤ maxB)) →
      ((∃ s, (qsearch enc minB maxB n low high best).1 = some s ∧
          minB ≤ s ∧ s ≤ maxB) ↔
        (∃ s, some s ∈ (qsearch enc minB maxB n low high best).2 ∧
          minB ≤ s ∧ s ≤ maxB)) := by
  intro n
  induction n with
  | zero =>
    intro low high best hbest
    simp only [qsearch, List.not_mem_nil, false_and, exists_false, iff_false]
    rintro ⟨s, hs, hband⟩
    exact hbest s hs hband
  | succ n ih =>
    intro low high best hbest
    simp only [qsearch]
    cases h : enc ((low + high) / 2) with
    | none =>
      simp only [List.mem_singleton]
      constructor
      · rintro ⟨s, hs, hband⟩; exact absurd hband (hbest s hs)
      · rintro ⟨s, hs, _⟩; exact absurd hs (by simp)
    | some size =>
      by_cases h1 : maxB < size
      · simp only [if_pos h1, List.mem_cons]
        have hnew : ∀ s, (some size : Option ℕ) = some s →
            ¬(minB ≤ s ∧ s ≤ maxB) := by
          rintro s hs ⟨_, hle⟩
          cases Option.some.inj hs
          omega
        rw [ih low ((low + high) / 2) (some size) hnew]
        constructor
        · rintro ⟨s, hs, hband⟩; exact ⟨s, Or.inr hs, hband⟩
        · rintro ⟨s, hs, hband⟩
          rcases hs with hs | hs
          · cases Option.some.inj hs.symm; omega
          · exact ⟨s, hs, hband⟩
      · by_cases h2 : size < minB
        · simp only [if_neg h1, if_pos h2, List.mem_cons]
          have hnew : ∀ s, (some size : Option ℕ) = some s →
              ¬(minB ≤ s ∧ s ≤ maxB) := by
            rintro s hs ⟨hge, _⟩
            cases Option.some.inj hs
            omega
          rw [ih ((low + high) / 2) high (some size) hnew]
          constructor
          · rintro ⟨s, hs, hband⟩; exact ⟨s, Or.inr hs, hband⟩
          · rintro ⟨s, hs, hband⟩
            rcases hs with hs | hs
            · cases Option.some.inj hs.symm; omega
            · exact ⟨s, hs, hband⟩
        · simp only [if_neg h1, if_neg h2, List.mem_singleton]
          constructor
          · rintro ⟨s, hs, hband⟩; exact ⟨s, hs.symm, hband⟩
          · rintro ⟨s, hs, hband⟩; exact ⟨s, hs.symm, hband⟩

/-- The function `compressImage` returns exactly the search's final `bestBlob`. -/

lemma resultSize_compressImage (enc : ℚ → Option ℕ) (a b : ℕ) :
    resultSize (compressImage enc a b) =
      (qsearch enc (a * 1024) (b * 1024) 7 (2/5) (19/20) none).1 := by
  unfold compressImage
  cases h : (qsearch enc (a * 1024) (b * 1024) 7 (2/5) (19/20) none).1 with
  | none => simp [resultSize, h]
  | some s => simp [resultSize, h]

/-! ### C1 : the quality search -/

/-- C1 (amended): the quality binary search performs at most 7 codec
(`toBlob`) invocations, starting from `low = 0.4`, `high = 0.95` and
re-encoding at the midpoint each iteration (lowering `high` above the max
bound, raising `low` below the min bound, stopping early inside the band,
as `qsearch` defines); and the returned file's size lies inside
`[200 KB, 400 KB]` iff one of the (at most 7) sampled encodings has size
inside that band.  The mere existence of a quality in `[0.4, 0.95]` whose
monotone size lies in the band does not guarantee an in-band result
(see the counterexample). -/

theorem compress_band_search (enc : ℚ → Option ℕ) :
    ((qsearch enc (200 * 1024) (400 * 1024) 7 (2/5) (19/20) none).2).length ≤ 7 ∧
    ((∃ s, resultSize (compressImage enc 200 400) = some s ∧
        200 * 1024 ≤ s ∧ s ≤ 400 * 1024) ↔
      (∃ s, some s ∈ (qsearch enc (200 * 1024) (400 * 1024) 7
          (2/5) (19/20) none).2 ∧ 200 * 1024 ≤ s ∧ s ≤ 400 * 1024)) := by
  constructor
  · exact qsearch_trace_length_le enc (200 * 1024) (400 * 1024) 7 (2/5) (19/20) none
  · rw [resultSize_compressImage]
    exact qsearch_band_iff enc (200 * 1024) (400 * 1024) 7 (2/5) (19/20) none
      (by rintro s ⟨⟩)

/-- Counterexample to C1 as stated: `c1size` is monotone and quality `1/2`
(inside `[0.4, 0.95]`) encodes to 300 KB, inside the 200-400 KB band, yet
`compressImage` returns a 100 KB file, outside the band: no midpoint
sampled in 7 iterations hits the band. -/

theorem compress_band_counterexample :
    Monotone c1size ∧
    ((2/5 : ℚ) ≤ 1/2 ∧ (1/2 : ℚ) ≤ 19/20) ∧
    (c1enc (1/2) = some 307200 ∧ 200 * 1024 ≤ 307200 ∧ 307200 ≤ 400 * 1024) ∧
    compressImage c1enc 200 400 = .compressed 102400 ∧
    ¬(200 * 1024 ≤ 102400) := by
  refine ⟨?_, ⟨by norm_num, by norm_num⟩, ⟨?_, by norm_num, by norm_num⟩, ?_, by norm_num⟩
  · intro a b hab
    unfold c1size
    split_ifs <;> try norm_num
    all_goals linarith
  · norm_num [c1enc, c1size]
  · norm_num [compressImage, qsearch, c1enc, c1size]

/-! ### C4 : fail-open behaviour on codec failure -/

/-- One unrolling of the search loop. -/

lemma qsearch_succ (enc : ℚ → Option ℕ) (minB maxB n : ℕ) (low high : ℚ)
    (best : Option ℕ) :
    qsearch enc minB maxB (n + 1) low high best =
      match enc ((low + high) / 2) with
      | none => (best, [none])
      | some size =>
        if maxB < size then
          let r := qsearch enc minB maxB n low ((low + high) / 2) (some size)
          (r.1, some size :: r.2)
        else if size < minB then
          let r := qsearch enc minB maxB n ((low + high) / 2) high (some size)
          (r.1, some size :: r.2)
        else (some size, [some size]) := rfl

/-- C4 (amended): `compressImage` returns the original file unchanged iff
the very first `toBlob` invocation (at quality `(0.4 + 0.95)/2`) produces
no output.  A codec failure at a later iteration instead returns a file
built from the last successful blob — a partially compressed result. -/

theorem compress_fail_open (enc : ℚ → Option ℕ) (a b : ℕ) :
    compressImage enc a b = .original ↔ enc ((2/5 + 19/20) / 2) = none := by
  unfold compressImage
  rw [show (7 : ℕ) = 6 + 1 from rfl, qsearch_succ]
  cases h : enc ((2/5 + 19/20) / 2) with
  | none => simp
  | some size =>
    dsimp only
    by_cases h1 : b * 1024 < size
    · simp only [if_pos h1]
      have hS := qsearch_isSome enc (a * 1024) (b * 1024) 6 (2/5) ((2/5 + 19/20) / 2) size
      constructor
      · intro hc
        cases hq : (qsearch enc (a * 1024) (b * 1024) 6 (2/5) ((2/5 + 19/20) / 2) (some size)).1 with
        | none => rw [hq] at hS; simp at hS
        | some s => rw [hq] at hc; simp at hc
      · intro hc; simp at hc
    · by_cases h2 : size < a * 1024
      · simp only [if_neg h1, if_pos h2]
        have hS := qsearch_isSome enc (a * 1024) (b * 1024) 6 ((2/5 + 19/20) / 2) (19/20) size
        constructor
        · intro hc
          cases hq : (qsearch enc (a * 1024) (b * 1024) 6 ((2/5 + 19/20) / 2) (19/20) (some size)).1 with
          | none => rw [hq] at hS; simp at hS
          | some s => rw [hq] at hc; simp at hc
        · intro hc; simp at hc
      · simp only [if_neg h1, if_neg h2]
        constructor
        · intro hc; simp at hc
        · intro hc; simp at hc

/-- Counterexample to C4 as stated: with `c4enc` the second `toBlob`
invocation fails (`none` appears in the trace), yet `compressImage` does
not return the original file — it returns a file built from the first,
oversized blob. -/

theorem compress_fail_counterexample :
    none ∈ (qsearch c4enc (200 * 1024) (400 * 1024) 7 (2/5) (19/20) none).2 ∧
    compressImage c4enc 200 400 = .compressed 512000 := by
  constructor
  · norm_num [qsearch, c4enc]
  · norm_num [compressImage, qsearch, c4enc]

lemma applyEvent_length (n : ℕ) (st : UploadProgress) (e : UploadEvent) :
    ((applyEvent n st e).perImage).length = st.perImage.length := by
  cases e <;> simp [applyEvent]

lemma foldl_applyEvent_length (n : ℕ) (evs : List UploadEvent) (st : UploadProgress) :
    ((evs.foldl (applyEvent n) st).perImage).length = st.perImage.length := by
  induction evs generalizing st with
  | nil => rfl
  | cons e t ih => rw [List.foldl_cons, ih, applyEvent_length]

lemma applyEvent_overall (n : ℕ) (st : UploadProgress) (e : UploadEvent) :
    (applyEvent n st e).overallPercent =
      jsRound (((applyEvent n st e).perImage.sum : ℚ) / n) := by
  cases e <;> rfl

/-- The batch invariant: `overallPercent` always equals
`Math.round` of the mean of the per-task percentages. -/

lemma runEvents_overall (n : ℕ) (evs : List UploadEvent) :
    (runEvents n evs).overallPercent =
      jsRound (((runEvents n evs).perImage.sum : ℚ) / n) := by
  cases evs using List.reverseRecOn with
  | nil =>
    show (0 : ℤ) = jsRound (((List.replicate n (0 : ℤ)).sum : ℚ) / n)
    rw [List.sum_replicate]
    norm_num [jsRound]
  | append_singleton l e =>
    rw [runEvents, List.foldl_append, List.foldl_cons, List.foldl_nil]
    exact applyEvent_overall n _ e

lemma foldl_untouched (n i : ℕ) (evs : List UploadEvent)
    (h : ∀ e ∈ evs, evIdx e ≠ i) (st : UploadProgress) :
    ((evs.foldl (applyEvent n) st).perImage)[i]? = st.perImage[i]? := by
  induction evs generalizing st with
  | nil => rfl
  | cons e t ih =>
    rw [List.foldl_cons, ih (fun x hx => h x (List.mem_cons_of_mem e hx))]
    have he : evIdx e ≠ i := h e (List.mem_cons_self e t)
    cases e with
    | progress j bt tb => exact List.getElem?_set_ne he
    | complete j => exact List.getElem?_set_ne he

/-- Once a task completes (and is not touched afterwards) its stored
percentage is 100, whatever byte counts were last reported. -/

lemma completesLast_hundred (n i : ℕ) (evs : List UploadEvent)
    (hi : i < n) (hc : completesLast evs i) :
    ((runEvents n evs).perImage)[i]? = some (100 : ℤ) := by
  obtain ⟨l, r, rfl, hr⟩ := hc
  rw [runEvents, List.foldl_append, List.foldl_cons]
  rw [foldl_untouched n i r hr]
  have hlen : ((l.foldl (applyEvent n) (initProgress n)).perImage).length = n := by
    rw [foldl_applyEvent_length]; simp [initProgress]
  show ((l.foldl (applyEvent n) (initProgress n)).perImage.set i 100)[i]? = _
  exact List.getElem?_set_eq_of_lt _ (by omega)

lemma sum_of_all_hundred :
    ∀ l : List ℤ, (∀ i, i < l.length → l[i]? = some 100) →
      l.sum = 100 * l.length := by
  intro l
  induction l with
  | nil => simp
  | cons a t ih =>
    intro h
    have ha : a = 100 := by
      have h0 := h 0 (by simp)
      simpa using h0
    have ht : t.sum = 100 * t.length := by
      refine ih (fun i hi => ?_)
      have hs := h (i + 1) (by simpa using Nat.succ_lt_succ hi)
      simpa using hs
    simp only [List.sum_cons, List.length_cons, ha, ht]
    push_cast
    ring

/-! ### C3 : batch progress invariant -/

/-- C3: at every point during a batch upload (every fold of callback
events), `overallPercent` equals `Math.round` of the arithmetic mean of the
per-task percentages, where a not-yet-started task counts 0 (the initial
fill) and a completed task was forced to 100; consequently once every task
has completed, `overallPercent = 100`. -/

theorem overall_percent_spec (n : ℕ) (evs : List UploadEvent) (hn : 0 < n) :
    (runEvents n evs).overallPercent =
      jsRound (((runEvents n evs).perImage.sum : ℚ) / n) ∧
    ((∀ i, i < n → completesLast evs i) →
      (runEvents n evs).overallPercent = 100) := by
  refine ⟨runEvents_overall n evs, fun hall => ?_⟩
  have hlen : ((runEvents n evs).perImage).length = n := by
    rw [runEvents, foldl_applyEvent_length]; simp [initProgress]
  have hsum : (runEvents n evs).perImage.sum = 100 * n := by
    have hs := sum_of_all_hundred ((runEvents n evs).perImage)
      (fun i hi => completesLast_hundred n i evs (by omega) (hall i (by omega)))
    rw [hs, hlen]
  rw [runEvents_overall n evs, hsum]
  have hne : ((n : ℚ)) ≠ 0 := by exact_mod_cast hn.ne'
  rw [show (((100 * (n : ℤ) : ℤ) : ℚ) / n) = 100 by push_cast; field_simp]
  norm_num [jsRound]

/-- Witness for `overall_percent_spec`: a two-task batch where task 0
reports 50% then completes, and task 1 completes; the batch ends at 100%. -/

theorem overall_percent_spec_witness :
    0 < 2 ∧
    (runEvents 2 [.progress 0 50 100, .complete 0, .complete 1]).overallPercent = 100 := by
  refine ⟨by norm_num, ?_⟩
  refine (overall_percent_spec 2 [.progress 0 50 100, .complete 0, .complete 1]
    (by norm_num)).2 ?_
  intro i hi
  interval_cases i
  · exact ⟨[.progress 0 50 100], [.complete 1], rfl, by decide⟩
  · exact ⟨[.progress 0 50 100, .complete 0], [], rfl, by decide⟩

/-! ### Facts about the upload loop -/

/-- Every effect recorded by the upload loop is a blob-store upload. -/

lemma uploadLoop_effects (u : ℕ → Except String String) :
    ∀ l : List ℕ, ∀ e ∈ (uploadLoop u l).1, ∃ i, e = Effect.uploadBlob i := by
  intro l
  induction l with
  | nil => intro e he; simp [uploadLoop] at he
  | cons i rest ih =>
    intro e he
    rw [uploadLoop] at he
    cases h : u i with
    | error err =>
      rw [h] at he
      simp at he
      exact ⟨i, he⟩
    | ok v =>
      rw [h] at he
      simp at he
      rcases he with rfl | he
      · exact ⟨i, rfl⟩
      · exact ih e he

lemma savedRecords_append (a b : List Effect) :
    savedRecords (a ++ b) = savedRecords a ++ savedRecords b :=
  List.filterMap_append a b _

lemma savedRecords_uploadLoop (u : ℕ → Except String String) (l : List ℕ) :
    savedRecords (uploadLoop u l).1 = [] := by
  rw [savedRecords, List.filterMap_eq_nil_iff]
  intro e he
  obtain ⟨i, rfl⟩ := uploadLoop_effects u l e he
  rfl

lemma savedRecords_normalize (l : List ℕ) :
    savedRecords (l.map Effect.normalize) = [] := by
  rw [savedRecords, List.filterMap_eq_nil_iff]
  intro e he
  obtain ⟨i, _, rfl⟩ := List.mem_map.mp he
  rfl

lemma savedRecords_revoke (l : List String) :
    savedRecords (l.map Effect.revokeURL) = [] := by
  rw [savedRecords, List.filterMap_eq_nil_iff]
  intro e he
  obtain ⟨s, _, rfl⟩ := List.mem_map.mp he
  rfl

/-- A successful upload loop yields one URL per input index, in input
order: the URL at position `k` is the blob store's answer for index
`l[k]`. -/

lemma uploadLoop_ok (u : ℕ → Except String String) :
    ∀ (l : List ℕ) (urls : List String), (uploadLoop u l).2 = .ok urls →
      urls.length = l.length ∧
      ∀ k, k < l.length → u (l.getD k 0) = .ok (urls.getD k "") := by
  intro l
  induction l with
  | nil =>
    intro urls h
    simp only [uploadLoop] at h
    cases h
    exact ⟨rfl, fun k hk => absurd hk (by simp)⟩
  | cons i rest ih =>
    intro urls h
    rw [uploadLoop] at h
    cases hu : u i with
    | error e => rw [hu] at h; simp at h
    | ok v =>
      rw [hu] at h
      simp only at h
      cases hr : (uploadLoop u rest).2 with
      | error e => rw [hr] at h; simp [Except.map] at h
      | ok urls' =>
        rw [hr] at h
        simp only [Except.map] at h
        cases h
        obtain ⟨hlen, hidx⟩ := ih urls' hr
        refine ⟨by simp [hlen], fun k hk => ?_⟩
        cases k with
        | zero => simpa using hu
        | succ k =>
          have hk' : k < rest.length := by simpa using hk
          simpa using hidx k hk'

/-- If some requested index cannot be uploaded, the loop fails. -/

lemma uploadLoop_error (u : ℕ → Except String String) :
    ∀ l : List ℕ, (∃ i ∈ l, ∃ e, u i = .error e) →
      ∃ e, (uploadLoop u l).2 = .error e := by
  intro l
  induction l with
  | nil => rintro ⟨i, hi, _⟩; simp at hi
  | cons j rest ih =>
    rintro ⟨i, hi, e, he⟩
    rw [uploadLoop]
    cases hu : u j with
    | error e' => exact ⟨e', rfl⟩
    | ok v =>
      simp only
      have hrest : ∃ i ∈ rest, ∃ e, u i = .error e := by
        rcases List.mem_cons.mp hi with rfl | hmem
        · rw [hu] at he; cases he
        · exact ⟨i, hmem, e, he⟩
      obtain ⟨e', he'⟩ := ih hrest
      rw [he']
      exact ⟨e', rfl⟩

/-- A blob whose index precedes the first failure is uploaded: within
`range' s cnt`, if every index before `i` succeeded, then the loop did
call the blob store for `i`. -/

lemma uploadLoop_range'_mem (u : ℕ → Except String String) :
    ∀ (cnt s i : ℕ), s ≤ i → i < s + cnt →
      (∀ k, s ≤ k → k < i → ∃ v, u k = .ok v) →
      Effect.uploadBlob i ∈ (uploadLoop u (List.range' s cnt)).1 := by
  intro cnt
  induction cnt with
  | zero => intro s i h1 h2 _; omega
  | succ cnt ih =>
    intro s i h1 h2 hok
    rw [List.range'_succ]
    by_cases hsi : s = i
    · subst hsi
      rw [uploadLoop]
      cases h : u s with
      | error e => simp
      | ok v => simp
    · have hs : s < i := lt_of_le_of_ne h1 hsi
      obtain ⟨v, hv⟩ := hok s le_rfl hs
      rw [uploadLoop, hv]
      simp only
      exact List.mem_cons_of_mem _
        (ih (s + 1) i hs (by omega) (fun k hk1 hk2 => hok k (by omega) hk2))

/-! ### Case analysis of `submit` -/

/-- Enumeration of `submit`'s possible outcomes. -/

lemma submit_shape (env : SubmitEnv) (st : SubmitState) :
    ((st.rtype = "" ∨ st.description = "" ∨ st.latlng = none ∨ st.images = []) ∧
      ∃ msg, submit env st = (.validationError msg, st, [])) ∨
    (env.user = none ∧
      submit env st = (.failure, { st with uploading := false }, [])) ∨
    (∃ uid email, env.user = some (uid, email) ∧
      ((∃ e, upResult env st = .error e ∧
          submit env st =
            (.failure, uploadingOff st, normEffs st ++ upEffs env st)) ∨
        (∃ urls, upResult env st = .ok urls ∧
          ((∃ e, env.save (builtReport env st uid email urls) = .error e ∧
              submit env st = (.failure, uploadingOff st,
                normEffs st ++ upEffs env st ++
                  [.saveReport (builtReport env st uid email urls)])) ∨
            (env.save (builtReport env st uid email urls) = .ok () ∧
              submit env st = (.success, resetState,
                normEffs st ++ upEffs env st ++
                  [.saveReport (builtReport env st uid email urls)] ++
                  st.previews.map Effect.revokeURL)))))) := by
  unfold submit
  by_cases h1 : st.rtype = ""
  · rw [if_pos h1]; exact Or.inl ⟨Or.inl h1, _, rfl⟩
  rw [if_neg h1]
  by_cases h2 : st.description = ""
  · rw [if_pos h2]; exact Or.inl ⟨Or.inr (Or.inl h2), _, rfl⟩
  rw [if_neg h2]
  by_cases h3 : st.latlng = none
  · rw [if_pos h3]; exact Or.inl ⟨Or.inr (Or.inr (Or.inl h3)), _, rfl⟩
  rw [if_neg h3]
  by_cases h4 : st.images = []
  · rw [if_pos h4]; exact Or.inl ⟨Or.inr (Or.inr (Or.inr h4)), _, rfl⟩
  rw [if_neg h4]
  cases hu : env.user with
  | none => exact Or.inr (Or.inl ⟨rfl, rfl⟩)
  | some ue =>
    obtain ⟨uid, email⟩ := ue
    refine Or.inr (Or.inr ⟨uid, email, rfl, ?_⟩)
    cases hup : upResult env st with
    | error e => exact Or.inl ⟨e, rfl, rfl⟩
    | ok urls =>
      refine Or.inr ⟨urls, rfl, ?_⟩
      dsimp only
      cases hsv : env.save (builtReport env st uid email urls) with
      | error e => exact Or.inl ⟨e, rfl, rfl⟩
      | ok u => exact Or.inr ⟨rfl, rfl⟩

/-- Helper: no record-creation call hides among normalization, upload or
revocation effects. -/

lemma savedRecords_main (env : SubmitEnv) (st : SubmitState)
    (r : PersistedReport) :
    savedRecords (normEffs st ++ upEffs env st ++ [.saveReport r] ++
      st.previews.map Effect.revokeURL) = [r] := by
  rw [savedRecords_append, savedRecords_append, savedRecords_append,
    normEffs, upEffs, savedRecords_normalize, savedRecords_uploadLoop,
    savedRecords_revoke]
  rfl

/-! ### C8 : validation short-circuits before any I/O -/

/-- C8: a submission attempt with a missing required field (no pollution
type, empty description, no geocoordinate, or zero images) is rejected
with a validation message before any I/O: the trace is empty (zero calls
to the normalizer, the blob store and the report store) and the component
state — previews, progress array, `uploading` flag — is exactly unchanged. -/

theorem validation_short_circuits (env : SubmitEnv) (st : SubmitState)
    (h : st.rtype = "" ∨ st.description = "" ∨ st.latlng = none ∨
      st.images = []) :
    ∃ msg, submit env st = (.validationError msg, st, []) := by
  unfold submit
  by_cases h1 : st.rtype = ""
  · exact ⟨_, by rw [if_pos h1]⟩
  by_cases h2 : st.description = ""
  · exact ⟨_, by rw [if_neg h1, if_pos h2]⟩
  by_cases h3 : st.latlng = none
  · exact ⟨_, by rw [if_neg h1, if_neg h2, if_pos h3]⟩
  have h4 : st.images = [] := by tauto
  exact ⟨_, by rw [if_neg h1, if_neg h2, if_neg h3, if_pos h4]⟩

/-- Witness for `validation_short_circuits`: an empty description. -/

theorem validation_short_circuits_witness :
    (invalidSt.rtype = "" ∨ invalidSt.description = "" ∨
      invalidSt.latlng = none ∨ invalidSt.images = []) ∧
    ∃ msg, submit okEnv invalidSt = (.validationError msg, invalidSt, []) :=
  ⟨Or.inr (Or.inl rfl),
    validation_short_circuits okEnv invalidSt (Or.inr (Or.inl rfl))⟩

/-! ### C2 : shape of the persisted report -/

/-- C2 (amended): every successful submission creates exactly one report
document, with `status = "Pending"`, `upvotes = 0`, one URL per accepted
image in original submission order (the URL at index `i` is the blob
store's answer for image `i`) — and with **no** `approved` field written
(`approved = none`; the admin dashboards treat the absent field as
not-approved/pending). -/

theorem persisted_report_shape (env : SubmitEnv) (st : SubmitState)
    (st' : SubmitState) (effs : List Effect)
    (h : submit env st = (.success, st', effs)) :
    ∃ r, savedRecords effs = [r] ∧ r.status = "Pending" ∧ r.upvotes = 0 ∧
      r.approved = none ∧ r.images.length = st.images.length ∧
      ∀ i, i < st.images.length → env.upload i = .ok (r.images.getD i "") := by
  rcases submit_shape env st with ⟨_, msg, hs⟩ | ⟨_, hs⟩ |
    ⟨uid, email, hu, ⟨e, hup, hs⟩ | ⟨urls, hup, ⟨e, hsv, hs⟩ | ⟨hsv, hs⟩⟩⟩
  · rw [h] at hs; simp at hs
  · rw [h] at hs; simp at hs
  · rw [h] at hs; simp at hs
  · rw [h] at hs; simp at hs
  · rw [h] at hs
    injection hs with hres h23
    injection h23 with hst heff
    refine ⟨builtReport env st uid email urls, ?_, rfl, rfl, rfl, ?_, ?_⟩
    · rw [heff]
      exact savedRecords_main env st _
    · unfold upResult at hup
      obtain ⟨hlen, _⟩ := uploadLoop_ok env.upload _ urls hup
      show urls.length = st.images.length
      rw [hlen, List.length_range]
    · intro i hi
      unfold upResult at hup
      obtain ⟨hlen, hidx⟩ := uploadLoop_ok env.upload _ urls hup
      have hr := hidx i (by rw [List.length_range]; exact hi)
      rwa [List.getD_eq_getElem?_getD, List.getElem?_range hi] at hr

/-- Counterexample to C2 as stated: a concrete successful submission whose
persisted record carries no `approved` field at all (`none`), rather than
`approved == false`. -/

theorem persisted_report_counterexample :
    (submit okEnv validSt).1 = .success ∧
    (savedRecords (submit okEnv validSt).2.2).map (fun r => r.approved) = [none] ∧
    (savedRecords (submit okEnv validSt).2.2).map (fun r => r.approved) ≠
      [some false] := by
  refine ⟨rfl, rfl, ?_⟩
  decide

/-- Witness for `persisted_report_shape` on a concrete submission. -/

theorem persisted_report_shape_witness :
    ∃ r, savedRecords (submit okEnv validSt).2.2 = [r] ∧
      r.status = "Pending" ∧ r.upvotes = 0 ∧ r.approved = none ∧
      r.images.length = validSt.images.length ∧
      ∀ i, i < validSt.images.length →
        okEnv.upload i = .ok (r.images.getD i "") :=
  persisted_report_shape okEnv validSt (submit okEnv validSt).2.1
    (submit okEnv validSt).2.2 rfl

/-! ### C5 : an upload failure fails the batch, with no rollback -/

/-- C5: if any upload in the batch fails (with validation passed and a
user logged in), the whole submission fails: no report record is created,
no blob is ever deleted (no rollback), and every image before the first
failing one was in fact uploaded — its blob stays in place. -/

theorem upload_failure_no_save (env : SubmitEnv) (st : SubmitState)
    (hty : st.rtype ≠ "") (hd : st.description ≠ "")
    (hl : st.latlng ≠ none) (him : st.images ≠ [])
    (uid email : String) (hu : env.user = some (uid, email))
    (hfail : ∃ i, i < st.images.length ∧ ∃ e, env.upload i = .error e) :
    (submit env st).1 = .failure ∧
    savedRecords (submit env st).2.2 = [] ∧
    (∀ i, Effect.deleteBlob i ∉ (submit env st).2.2) ∧
    ∀ i, i < st.images.length →
      (∀ k, k < i → ∃ v, env.upload k = .ok v) →
      Effect.uploadBlob i ∈ (submit env st).2.2 := by
  obtain ⟨i0, hi0, e0, he0⟩ := hfail
  obtain ⟨e, he⟩ := uploadLoop_error env.upload (List.range st.images.length)
    ⟨i0, List.mem_range.mpr hi0, e0, he0⟩
  have hup : upResult env st = .error e := he
  rcases submit_shape env st with ⟨hv, _, _⟩ | ⟨hnone, _⟩ |
    ⟨uid', email', hu', ⟨e', hup', hs⟩ | ⟨urls, hup', _⟩⟩
  · tauto
  · rw [hnone] at hu; cases hu
  · rw [hs]
    refine ⟨rfl, ?_, ?_, ?_⟩
    · show savedRecords (normEffs st ++ upEffs env st) = []
      rw [savedRecords_append, normEffs, upEffs, savedRecords_normalize,
        savedRecords_uploadLoop]
      rfl
    · intro i hmem
      rcases List.mem_append.mp hmem with hm | hm
      · rw [normEffs] at hm
        obtain ⟨j, _, hj⟩ := List.mem_map.mp hm
        cases hj
      · rw [upEffs] at hm
        obtain ⟨j, hj⟩ := uploadLoop_effects env.upload _ _ hm
        cases hj
    · intro i hi hok
      refine List.mem_append_right _ ?_
      rw [upEffs, List.range_eq_range']
      exact uploadLoop_range'_mem env.upload st.images.length 0 i
        (Nat.zero_le i) (by omega) (fun k _ hk => hok k hk)
  · rw [hup] at hup'; cases hup'

/-- Witness for `upload_failure_no_save`: the blob store rejects the
second of three images; the submission fails, no record is created, and
the first image's blob was uploaded (and never deleted). -/

theorem upload_failure_no_save_witness :
    (submit failEnv threeSt).1 = .failure ∧
    savedRecords (submit failEnv threeSt).2.2 = [] ∧
    Effect.uploadBlob 0 ∈ (submit failEnv threeSt).2.2 := by
  have h := upload_failure_no_save failEnv threeSt (by decide) (by decide)
    (by decide) (by decide) "uid1" "user@mail.com" rfl
    ⟨1, by decide, "network down", rfl⟩
  exact ⟨h.1, h.2.1, h.2.2.2 0 (by decide) (fun k hk => absurd hk (by omega))⟩

/-! ### C9 : release of preview object URLs -/

/-- C9 (amended): only the success path revokes the preview object URLs
and clears the transient progress state; on every non-success outcome
(validation rejection, missing user, upload failure, store rejection) the
previews are retained unrevoked — the catch block resets only the
`uploading` flag. -/

theorem preview_release_spec (env : SubmitEnv) (st : SubmitState)
    (res : SubmitResult) (st' : SubmitState) (effs : List Effect)
    (h : submit env st = (res, st', effs)) :
    (res = .success → st'.previews = [] ∧ st'.progressPerImage = [] ∧
      st'.uploading = false ∧
      ∀ u ∈ st.previews, Effect.revokeURL u ∈ effs) ∧
    (res ≠ .success → st'.previews = st.previews ∧
      ∀ u, Effect.revokeURL u ∉ effs) := by
  rcases submit_shape env st with ⟨_, msg, hs⟩ | ⟨_, hs⟩ |
    ⟨uid, email, hu, ⟨e, hup, hs⟩ | ⟨urls, hup, ⟨e, hsv, hs⟩ | ⟨hsv, hs⟩⟩⟩
  · rw [h] at hs
    injection hs with hres h23
    injection h23 with hst heff
    constructor
    · intro hsucc; rw [hres] at hsucc; cases hsucc
    · intro _
      refine ⟨by rw [hst], ?_⟩
      rw [heff]
      intro u hu'
      simp at hu'
  · rw [h] at hs
    injection hs with hres h23
    injection h23 with hst heff
    constructor
    · intro hsucc; rw [hres] at hsucc; cases hsucc
    · intro _
      refine ⟨by rw [hst], ?_⟩
      rw [heff]
      intro u hu'
      simp at hu'
  · rw [h] at hs
    injection hs with hres h23
    injection h23 with hst heff
    constructor
    · intro hsucc; rw [hres] at hsucc; cases hsucc
    · intro _
      refine ⟨by rw [hst, uploadingOff], ?_⟩
      rw [heff]
      intro u hu'
      rcases List.mem_append.mp hu' with hm | hm
      · rw [normEffs] at hm
        obtain ⟨j, _, hj⟩ := List.mem_map.mp hm
        cases hj
      · rw [upEffs] at hm
        obtain ⟨j, hj⟩ := uploadLoop_effects env.upload _ _ hm
        cases hj
  · rw [h] at hs
    injection hs with hres h23
    injection h23 with hst heff
    constructor
    · intro hsucc; rw [hres] at hsucc; cases hsucc
    · intro _
      refine ⟨by rw [hst, uploadingOff], ?_⟩
      rw [heff]
      intro u hu'
      rcases List.mem_append.mp hu' with hm | hm
      · rcases List.mem_append.mp hm with hm' | hm'
        · rw [normEffs] at hm'
          obtain ⟨j, _, hj⟩ := List.mem_map.mp hm'
          cases hj
        · rw [upEffs] at hm'
          obtain ⟨j, hj⟩ := uploadLoop_effects env.upload _ _ hm'
          cases hj
      · simp at hm
  · rw [h] at hs
    injection hs with hres h23
    injection h23 with hst heff
    constructor
    · intro _
      refine ⟨by rw [hst]; rfl, by rw [hst]; rfl, by rw [hst]; rfl, ?_⟩
      intro u humem
      rw [heff]
      exact List.mem_append_right _ (List.mem_map_of_mem _ humem)
    · intro hne; rw [hres] at hne; exact absurd rfl hne

/-- Counterexample to C9 as stated: a concrete failing submission (blob
store rejects the second image) whose previews are left un-revoked: the
final state still holds all three preview URLs and the trace contains no
revocation. -/

theorem preview_release_counterexample :
    (submit failEnv threeSt).1 = .failure ∧
    (submit failEnv threeSt).2.1.previews = ["blob:0", "blob:1", "blob:2"] ∧
    (submit failEnv threeSt).2.2 =
      [.normalize 0, .normalize 1, .normalize 2,
        .uploadBlob 0, .uploadBlob 1] := by
  refine ⟨rfl, rfl, ?_⟩
  decide

/-- Witness for `preview_release_spec`: on a successful submission the
previews are cleared and each preview URL revoked; on a failing one the
previews survive. -/

theorem preview_release_spec_witness :
    (submit okEnv validSt).2.1.previews = [] ∧
    Effect.revokeURL "blob:1" ∈ (submit okEnv validSt).2.2 ∧
    (submit failEnv threeSt).2.1.previews = threeSt.previews := by
  have hS := (preview_release_spec okEnv validSt (submit okEnv validSt).1
    (submit okEnv validSt).2.1 (submit okEnv validSt).2.2 rfl).1 (by rfl)
  have hF := (preview_release_spec failEnv threeSt (submit failEnv threeSt).1
    (submit failEnv threeSt).2.1 (submit failEnv threeSt).2.2 rfl).2 (by decide)
  exact ⟨hS.1, hS.2.2.2 "blob:1" (by decide), hF.1⟩

/-! ### C6 : workflow-status monotonicity -/

/-- C6 (amended): the admin operations write exactly the fields they are
given, with no monotonicity guard: `updateStatus` stores any requested
status, `approveReport` forces `In Progress` (and sets the approval
flag) regardless of the current status, `approveReportV2` and
`unapproveReport` only change the approval flag.  Consequently the status
can move backward (see the counterexample); the workflow is not enforced
to be monotonically forward. -/

theorem status_operations (r : ReportDoc) (s : String) :
    (updateStatus r s).status = s ∧
    (approveReport r).status = "In Progress" ∧
    (approveReport r).approved = some true ∧
    (approveReportV2 r).status = r.status ∧
    (unapproveReport r).status = r.status ∧
    (unapproveReport r).approved = some false :=
  ⟨rfl, rfl, rfl, rfl, rfl, rfl⟩

/-- Counterexample to C6 as stated: on a `Done` report, `updateStatus`
back to `Pending` and `approveReport` (which forces `In Progress`) both
move the workflow status strictly backward. -/

theorem status_monotone_counterexample :
    statusRank (updateStatus ⟨"Done", some true⟩ "Pending").status <
      statusRank "Done" ∧
    statusRank (approveReport ⟨"Done", some false⟩).status <
      statusRank "Done" := by
  decide

/-- Witness for `status_operations` at a concrete report. -/

theorem status_operations_witness :
    (updateStatus ⟨"Pending", none⟩ "In Progress").status = "In Progress" ∧
    (approveReport ⟨"Pending", none⟩).status = "In Progress" ∧
    (approveReport ⟨"Pending", none⟩).approved = some true ∧
    (approveReportV2 ⟨"Pending", none⟩).status = (⟨"Pending", none⟩ : ReportDoc).status ∧
    (unapproveReport ⟨"Pending", none⟩).status = (⟨"Pending", none⟩ : ReportDoc).status ∧
    (unapproveReport ⟨"Pending", none⟩).approved = some false :=
  status_operations ⟨"Pending", none⟩ "In Progress"

/-! ### C10 : file-count cap and progress-array invariant -/

/-- C10: a selection or drop offering `fs` files accepts exactly the first
`min (fs.length) maxFiles = 3` of them, silently dropping the rest (no
error outcome exists), and resets the per-image progress array to all
zeros with length equal to the accepted count; for both handlers the
progress-array length always equals the accepted image count. -/

theorem file_selection_caps (mkUrl : ImageFile → String) (st : PickState)
    (fs : List ImageFile) :
    (onFileChange mkUrl st (some fs)).images = fs.take maxFiles ∧
    (onFileChange mkUrl st (some fs)).images.length = min fs.length maxFiles ∧
    (onFileChange mkUrl st (some fs)).progressPerImage =
      List.replicate (onFileChange mkUrl st (some fs)).images.length 0 ∧
    (onDrop mkUrl st (some fs)).images = fs.take maxFiles ∧
    (onDrop mkUrl st (some fs)).progressPerImage =
      List.replicate (onDrop mkUrl st (some fs)).images.length 0 ∧
    (∀ os, (onFileChange mkUrl st os).progressPerImage.length =
      (onFileChange mkUrl st os).images.length) ∧
    (∀ os, (onDrop mkUrl st os).progressPerImage.length =
      (onDrop mkUrl st os).images.length ∨
      onDrop mkUrl st os = st) := by
  refine ⟨rfl, ?_, rfl, rfl, rfl, ?_, ?_⟩
  · show (fs.take maxFiles).length = min fs.length maxFiles
    rw [List.length_take, Nat.min_comm]
  · intro os
    cases os with
    | none => simp [onFileChange]
    | some gs => simp [onFileChange]
  · intro os
    cases os with
    | none => exact Or.inr rfl
    | some gs => exact Or.inl (by simp [onDrop])

/-- Witness for `file_selection_caps`: five files offered, three kept. -/

theorem file_selection_caps_witness :
    (onFileChange (fun f => f) ⟨[], [], []⟩
        (some ["a", "b", "c", "d", "e"])).images = ["a", "b", "c"] ∧
    (onFileChange (fun f => f) ⟨[], [], []⟩
        (some ["a", "b", "c", "d", "e"])).progressPerImage = [0, 0, 0] := by
  have h := file_selection_caps (fun f => f) ⟨[], [], []⟩ ["a", "b", "c", "d", "e"]
  refine ⟨h.1, ?_⟩
  rw [h.2.2.1, h.1]
  rfl

/-- Witness for `compress_band_search` at a concrete encoder that always
produces 300 KB: the first sample is already in band, one invocation. -/
theorem compress_band_search_witness :
    ((qsearch (fun _ => some 307200) (200 * 1024) (400 * 1024) 7
      (2/5) (19/20) none).2).length ≤ 7 :=
  (compress_band_search (fun _ => some 307200)).1

/-- Witness for `compress_fail_open`: a codec that always fails makes
`compressImage` return the original file. -/
theorem compress_fail_open_witness :
    compressImage (fun _ => none) 200 400 = .original :=
  (compress_fail_open (fun _ => none) 200 400).mpr rfl

end PollutionReport
